import Mathlib

/-!
Verification of the playlist-player core against its JavaScript source
(src/js/utils.js, src/js/PlaylistManager.js, src/js/PlayerManager.js and the
YouTubeSegmentsEngine).  The JavaScript is shallowly embedded: JS values the
code actually branches on are modelled by `JVal`, stateful classes become
explicit state records with one Lean function per method, and the event-driven
concurrency of the engine's advance routine is modelled by splitting the
routine at its single suspension point (the awaited transition).
-/

namespace YSP

/-! ## JavaScript value model

Only the value shapes the embedded code distinguishes are modelled: undefined,
null, numbers (as `ℚ`; the code never relies on float rounding), strings and
booleans.  `NaN` never arises in the modelled fragments. -/

inductive JVal where
  | undef
  | jnull
  | num (q : ℚ)
  | str (s : String)
  | jbool (b : Bool)
deriving DecidableEq

/-- JS truthiness of a value (`if (x)`). -/
def JVal.truthy : JVal → Bool
  | .undef => false
  | .jnull => false
  | .num q => decide (q ≠ 0)
  | .str s => decide (s ≠ "")
  | .jbool b => b

/-- JS `a || b`. -/
def jsOr (a b : JVal) : JVal := if a.truthy then a else b

/-- Numeric content of a value; callers only use this under an `isNum`-style
guard (and for `null`, whose `ToNumber` is 0). -/
def JVal.asNum : JVal → ℚ
  | .num q => q
  | _ => 0

/-- `ToNumber` coercion used by JS relational operators, partially modelled:
`none` stands for NaN.  String operands are mapped to `none`; the embedded
comparison sites never receive strings in the domains quantified over. -/
def JVal.toNumCmp : JVal → Option ℚ
  | .num q => some q
  | .jnull => some 0
  | .jbool b => some (if b then 1 else 0)
  | .undef => none
  | .str _ => none

/-- JS `a <= b` (numeric path; NaN-involving comparisons are false). -/
def jsLE (a b : JVal) : Bool :=
  match a.toNumCmp, b.toNumCmp with
  | some x, some y => decide (x ≤ y)
  | _, _ => false

def isNum : JVal → Bool
  | .num _ => true
  | _ => false

def isStr : JVal → Bool
  | .str _ => true
  | _ => false

/-- String conversion used by template literals (number formatting is
approximate; the claims only exercise it on strings). -/
def JVal.render : JVal → String
  | .undef => "undefined"
  | .jnull => "null"
  | .num q => toString q
  | .str s => s
  | .jbool b => if b then "true" else "false"

/-! ## utils.js — `extractVideoId`

The regex patterns of the source are compiled by hand.  Each of the first four
patterns is a literal followed by exactly eleven identifier characters; the
fifth has a greedy `.*` between the `youtube.com/` literal and the `[?&]v=`
marker, so its capture is the rightmost eligible `v=` occurrence in the
newline-free region after the literal. -/

/-- Character class `[a-zA-Z0-9_-]`. -/
def isIdChar (c : Char) : Bool :=
  c.isAlphanum || c = '_' || c = '-'

/-- Try to match `lit` at the head of `cs` followed by exactly 11 identifier
characters; return the captured characters. -/
def matchAt (lit : List Char) (cs : List Char) : Option (List Char) :=
  if lit.isPrefixOf cs then
    let cand := (cs.drop lit.length).take 11
    if cand.length == 11 && cand.all isIdChar then some cand else none
  else none

/-- Leftmost match of `lit` + 11 identifier characters anywhere in the input
(regex search semantics). -/
def searchPat (lit : List Char) : List Char → Option (List Char)
  | [] => matchAt lit []
  | c :: cs =>
    match matchAt lit (c :: cs) with
    | some r => some r
    | none => searchPat lit cs

/-- Match `[?&]v=` + 11 identifier characters at the head of the input. -/
def vCapAt : List Char → Option (List Char)
  | c :: 'v' :: '=' :: rest =>
    if c = '?' ∨ c = '&' then
      let cand := rest.take 11
      if cand.length == 11 && cand.all isIdChar then some cand else none
    else none
  | _ => none

/-- Rightmost `[?&]v=` capture reachable without crossing a newline (the
greedy `.*` of the fifth pattern). -/
def lastVCap : List Char → Option (List Char)
  | [] => none
  | c :: cs =>
    let further := if c = '\n' then none else lastVCap cs
    match further with
    | some r => some r
    | none => vCapAt (c :: cs)

def litSlash : List Char := ("youtube.com/").toList

/-- One position of pattern 5: the `youtube.com/` literal, then `.*[?&]v=`
with greedy `.*`, capturing 11 identifier characters. -/
def pat5At (cs : List Char) : Option (List Char) :=
  if litSlash.isPrefixOf cs then lastVCap (cs.drop litSlash.length) else none

/-- Leftmost whole-match position of pattern 5. -/
def searchPat5 : List Char → Option (List Char)
  | [] => none
  | c :: cs =>
    match pat5At (c :: cs) with
    | some r => some r
    | none => searchPat5 cs

def litWatch : List Char := ("youtube.com/watch?v=").toList
def litEmbed : List Char := ("youtube.com/embed/").toList
def litShort : List Char := ("youtu.be/").toList
def litVSeg : List Char := ("youtube.com/v/").toList

/-- `extractVideoId` on an already trimmed non-empty string. -/
def extractFromTrimmed (cs : List Char) : Option String :=
  if cs.length == 11 && cs.all isIdChar then some (String.mk cs)
  else
    match searchPat litWatch cs with
    | some r => some (String.mk r)
    | none =>
      match searchPat litEmbed cs with
      | some r => some (String.mk r)
      | none =>
        match searchPat litShort cs with
        | some r => some (String.mk r)
        | none =>
          match searchPat litVSeg cs with
          | some r => some (String.mk r)
          | none =>
            match searchPat5 cs with
            | some r => some (String.mk r)
            | none => none

/-- `String.prototype.trim()` on the character list (ASCII whitespace; the
further Unicode space characters JS also strips do not occur in identifiers
or URLs). -/
def jsTrim (cs : List Char) : List Char :=
  ((cs.dropWhile Char.isWhitespace).reverse.dropWhile Char.isWhitespace).reverse

/-- utils.js `extractVideoId(url)`: null for non-strings and the empty string,
otherwise trim and try the bare-identifier shape and the five URL patterns in
order. -/
def extractVideoId (url : JVal) : Option String :=
  match url with
  | .str s => if s = "" then none else extractFromTrimmed (jsTrim s.toList)
  | _ => none

/-! ## utils.js — `validateVideoData` -/

/-- A candidate playlist entry as handed to `validateVideoData`/`addVideo`
(raw JS object fields; `cid`/`dateAdded` are the `id`/`dateAdded` fields kept
by `importPlaylist`'s object spread). -/
structure CandidateData where
  url : JVal := .undef
  startTime : JVal := .undef
  endTime : JVal := .undef
  title : JVal := .undef
  cid : JVal := .undef
  dateAdded : JVal := .undef
deriving DecidableEq

structure ValidationResult where
  isValid : Bool
  errors : List String
deriving DecidableEq

def msgRequired : String := "Video data is required"
def msgUrl : String := "Valid YouTube URL or video ID is required"
def msgStart : String := "Start time must be a non-negative number"
def msgEndNonneg : String := "End time must be a non-negative number"
def msgEndGt : String := "End time must be greater than start time"
def msgTitle : String := "Title must be a string"

/-- utils.js `validateVideoData(videoData)`; `none` models a missing/null
argument. -/
def validateVideoData (videoData : Option CandidateData) : ValidationResult :=
  match videoData with
  | none => { isValid := false, errors := [msgRequired] }
  | some v =>
    let e1 : List String :=
      if ¬ v.url.truthy ∨ (extractVideoId v.url).isNone then [msgUrl] else []
    let e2 : List String :=
      if v.startTime ≠ .undef ∧ (¬ isNum v.startTime ∨ v.startTime.asNum < 0) then
        [msgStart]
      else []
    let e3 : List String :=
      if v.endTime ≠ .undef ∧ v.endTime ≠ .jnull then
        if ¬ isNum v.endTime ∨ v.endTime.asNum < 0 then [msgEndNonneg]
        else if v.startTime ≠ .undef ∧ jsLE v.endTime v.startTime then [msgEndGt]
        else []
      else []
    let e4 : List String :=
      if v.title.truthy ∧ ¬ isStr v.title then [msgTitle] else []
    let errors := e1 ++ e2 ++ e3 ++ e4
    { isValid := errors.isEmpty, errors := errors }

/-! ## PlaylistManager.js — the Playlist Store

`generateId()` and `new Date().toISOString()` are nondeterministic in the
source; the embedding takes the fresh id / timestamp as explicit arguments.
Index arguments are `Int` (JS numbers, possibly negative); the stored
`currentIndex` only ever holds the non-negative values the source assigns it.
`saveToStorage` and the change notifications have no effect on store state and
are omitted here; the engine-level model accounts for the
`onCurrentIndexChange` subscription. -/

/-- A stored playlist entry as built by `addVideo`/`updateVideo`/
`importPlaylist` (raw JS field values; `enableFade` is the optional
per-segment fade override read by PlayerManager). -/
structure Video where
  vid : JVal
  url : JVal
  videoId : Option String
  startTime : JVal
  endTime : JVal
  title : JVal
  dateAdded : JVal
  dateModified : JVal := .undef
  enableFade : JVal := .undef
deriving DecidableEq

structure PMState where
  playlist : List Video
  currentIndex : ℕ
  loopEnabled : Bool
deriving DecidableEq

def initialPM : PMState := { playlist := [], currentIndex := 0, loopEnabled := false }

/-- The exact-tuple duplicate test of `addVideo`/`updateVideo`:
`item.videoId === video.videoId && item.startTime === video.startTime &&
item.endTime === video.endTime`. -/
def SameTuple (a b : Video) : Prop :=
  a.videoId = b.videoId ∧ a.startTime = b.startTime ∧ a.endTime = b.endTime

instance : DecidablePred fun p : Video × Video => SameTuple p.1 p.2 :=
  fun _ => by unfold SameTuple; infer_instance

instance (a b : Video) : Decidable (SameTuple a b) := by
  unfold SameTuple; infer_instance

structure AddResult where
  success : Bool
  message : String
  video : Option Video := none
deriving DecidableEq

def msgInvalidUrl : String := "Invalid YouTube URL or video ID"
def msgDupAdd : String := "This video segment is already in the playlist"
def msgAdded : String := "Video added to playlist"
def msgInvalidIndex : String := "Invalid video index"
def msgDupUpdate : String :=
  "A video with the same URL and time range already exists in the playlist"

/-- The video object `addVideo` constructs (note `startTime || 0`,
`endTime || null`, and the positional placeholder title). -/
def mkAddedVideo (s : PMState) (genId now : String) (v : CandidateData)
    (videoId : String) : Video :=
  { vid := .str genId
    url := v.url
    videoId := some videoId
    startTime := jsOr v.startTime (.num 0)
    endTime := jsOr v.endTime .jnull
    title := jsOr v.title (.str ("Video " ++ toString (s.playlist.length + 1)))
    dateAdded := .str now }

/-- PlaylistManager.addVideo. -/
def addVideo (s : PMState) (genId now : String) (videoData : Option CandidateData) :
    PMState × AddResult :=
  let validation := validateVideoData videoData
  if ¬ validation.isValid then
    (s, { success := false, message := String.intercalate (", ") validation.errors })
  else
    match videoData with
    | none =>
      -- unreachable: `validateVideoData none` is always invalid
      (s, { success := false, message := msgRequired })
    | some v =>
      match extractVideoId v.url with
      | none => (s, { success := false, message := msgInvalidUrl })
      | some videoId =>
        let video := mkAddedVideo s genId now v videoId
        if s.playlist.any fun item => decide (SameTuple item video) then
          (s, { success := false, message := msgDupAdd })
        else
          ({ s with playlist := s.playlist ++ [video] },
           { success := true, message := msgAdded, video := some video })

/-- PlaylistManager.removeVideo (splice out, then the two pointer
adjustments; `Math.max(0, length-1)` coincides with truncated `ℕ`
subtraction). -/
def removeVideo (s : PMState) (index : Int) : PMState × Bool :=
  if index < 0 ∨ (s.playlist.length : Int) ≤ index then (s, false)
  else
    let pl := s.playlist.eraseIdx index.toNat
    let cur :=
      if index < (s.currentIndex : Int) then s.currentIndex - 1
      else if index = (s.currentIndex : Int) ∧ pl.length ≤ s.currentIndex then
        pl.length - 1
      else s.currentIndex
    ({ s with playlist := pl, currentIndex := cur }, true)

/-- PlaylistManager.updateVideo. -/
def updateVideo (s : PMState) (now : String) (index : Int)
    (videoData : Option CandidateData) : PMState × AddResult :=
  if index < 0 ∨ (s.playlist.length : Int) ≤ index then
    (s, { success := false, message := msgInvalidIndex })
  else
    let validation := validateVideoData videoData
    if ¬ validation.isValid then
      (s, { success := false, message := String.intercalate (", ") validation.errors })
    else
      match videoData with
      | none => (s, { success := false, message := msgRequired }) -- unreachable
      | some v =>
        match extractVideoId v.url with
        | none => (s, { success := false, message := msgInvalidUrl })
        | some videoId =>
          match s.playlist[index.toNat]? with
          | none => (s, { success := false, message := msgInvalidIndex }) -- unreachable
          | some existing =>
            let updated := { existing with
              url := v.url
              videoId := some videoId
              startTime := jsOr v.startTime (.num 0)
              endTime := jsOr v.endTime .jnull
              title := jsOr v.title existing.title
              dateModified := .str now }
            if s.playlist.enum.any fun p =>
                decide (p.1 ≠ index.toNat) && decide (SameTuple p.2 updated) then
              (s, { success := false, message := msgDupUpdate })
            else
              ({ s with playlist := s.playlist.set index.toNat updated },
               { success := true, message := ("Updated ") ++ updated.title.render })

/-- PlaylistManager.moveVideo (splice out of `fromIndex`, splice into
`toIndex`, then the three pointer adjustments). -/
def moveVideo (s : PMState) (fromIndex toIndex : Int) : PMState × Bool :=
  if fromIndex < 0 ∨ (s.playlist.length : Int) ≤ fromIndex ∨
     toIndex < 0 ∨ (s.playlist.length : Int) ≤ toIndex ∨ fromIndex = toIndex then
    (s, false)
  else
    match s.playlist[fromIndex.toNat]? with
    | none => (s, false) -- unreachable: fromIndex is in range
    | some video =>
      let pl := (s.playlist.eraseIdx fromIndex.toNat).insertIdx toIndex.toNat video
      let cur :=
        if fromIndex = (s.currentIndex : Int) then toIndex.toNat
        else if fromIndex < (s.currentIndex : Int) ∧ (s.currentIndex : Int) ≤ toIndex then
          s.currentIndex - 1
        else if (s.currentIndex : Int) < fromIndex ∧ toIndex ≤ (s.currentIndex : Int) then
          s.currentIndex + 1
        else s.currentIndex
      ({ s with playlist := pl, currentIndex := cur }, true)

/-- PlaylistManager.clearPlaylist. -/
def clearPlaylist (s : PMState) : PMState :=
  { s with playlist := [], currentIndex := 0 }

/-- PlaylistManager.duplicateVideo (copies the entry, fresh id, title suffixed
with " (Copy)", inserted right after the original). -/
def duplicateVideo (s : PMState) (genId now : String) (index : Int) : PMState × Bool :=
  if index < 0 ∨ (s.playlist.length : Int) ≤ index then (s, false)
  else
    match s.playlist[index.toNat]? with
    | none => (s, false) -- unreachable: index is in range
    | some original =>
      let dup := { original with
        vid := .str genId
        title := .str (original.title.render ++ (" (Copy)"))
        dateAdded := .str now }
      ({ s with playlist := s.playlist.insertIdx (index.toNat + 1) dup }, true)

/-- PlaylistManager.setCurrentIndex. -/
def setCurrentIndex (s : PMState) (index : Int) : PMState × Bool :=
  if index < 0 ∨ (s.playlist.length : Int) ≤ index then (s, false)
  else ({ s with currentIndex := index.toNat }, true)

/-- PlaylistManager.next. -/
def next (s : PMState) : PMState × Bool :=
  if s.playlist.length = 0 then (s, false)
  else if s.currentIndex < s.playlist.length - 1 then
    ({ s with currentIndex := s.currentIndex + 1 }, true)
  else if s.loopEnabled then
    ({ s with currentIndex := 0 }, true)
  else (s, false)

/-- PlaylistManager.previous. -/
def previous (s : PMState) : PMState × Bool :=
  if s.playlist.length = 0 then (s, false)
  else if 0 < s.currentIndex then
    ({ s with currentIndex := s.currentIndex - 1 }, true)
  else if s.loopEnabled then
    ({ s with currentIndex := s.playlist.length - 1 }, true)
  else (s, false)

/-- PlaylistManager.toggleLoop. -/
def toggleLoop (s : PMState) : PMState × Bool :=
  ({ s with loopEnabled := !s.loopEnabled }, !s.loopEnabled)

/-- PlaylistManager.getCurrentVideo (`playlist[currentIndex] || null`). -/
def getCurrentVideo (s : PMState) : Option Video := s.playlist[s.currentIndex]?

/-- PlaylistManager.getVideo. -/
def getVideo (s : PMState) (index : Int) : Option Video :=
  if index < 0 then none else s.playlist[index.toNat]?

/-- PlaylistManager.hasNext (`currentIndex < length - 1 || loopEnabled`; the
JS `length - 1` is `-1` on an empty list, on which the comparison is false
exactly as with truncated subtraction). -/
def hasNext (s : PMState) : Bool :=
  decide (s.currentIndex < s.playlist.length - 1) || s.loopEnabled

/-- PlaylistManager.hasPrevious. -/
def hasPrevious (s : PMState) : Bool :=
  decide (0 < s.currentIndex) || s.loopEnabled

/-- PlaylistManager.getNextVideo (`playlist[currentIndex + 1] || null` behind
a `hasNext()` guard). -/
def getNextVideo (s : PMState) : Option Video :=
  if hasNext s then s.playlist[s.currentIndex + 1]? else none

/-- PlaylistManager.getPlaylist returns `[...this.playlist]`; as a pure value
this is the list itself.  The freshness of the copied array is modelled
separately on the reference-heap model below. -/
def getPlaylist (s : PMState) : List Video := s.playlist

/-- PlaylistManager.getLength. -/
def getLength (s : PMState) : ℕ := s.playlist.length

/-! ### importPlaylist -/

def msgInvalidFormat : String := "Invalid playlist format"
def msgNoValid : String := "No valid videos found in import data"

/-- The parsed argument of `importPlaylist`: either `JSON.parse` threw, or a
document whose `playlist` field is an array (`none` models an absent,
non-array or falsy `playlist` field; array entries may be null). -/
inductive ImportInput where
  | parseFailure (msg : String)
  | doc (playlistField : Option (List (Option CandidateData))) (loopEnabled : JVal)

structure ImportResult where
  success : Bool
  message : String
  imported : ℕ := 0
  errors : List String := []
deriving DecidableEq

/-- The video object a valid import entry becomes: the raw entry spread, with
`id`, `videoId` and `dateAdded` overridden (`i` is the entry's position, used
for the fresh-id supply). -/
def importEntryVideo (genIds : ℕ → String) (now : String) (i : ℕ)
    (v : CandidateData) : Video :=
  { vid := jsOr v.cid (.str (genIds i))
    url := v.url
    videoId := extractVideoId v.url
    startTime := v.startTime
    endTime := v.endTime
    title := v.title
    dateAdded := jsOr v.dateAdded (.str now) }

def importErrString (i : ℕ) (errors : List String) : String :=
  ("Video ") ++ toString (i + 1) ++ (": ") ++ String.intercalate (", ") errors

/-- The `forEach` loop of `importPlaylist`: accumulate valid videos and one
error string per invalid entry, keeping the entry index. -/
def importScan (genIds : ℕ → String) (now : String) :
    ℕ → List (Option CandidateData) → List Video × List String → List Video × List String
  | _, [], acc => acc
  | i, e :: rest, acc =>
    let validation := validateVideoData e
    if validation.isValid then
      match e with
      | some v =>
        importScan genIds now (i + 1) rest (acc.1 ++ [importEntryVideo genIds now i v], acc.2)
      | none =>
        -- unreachable: a null entry never validates
        importScan genIds now (i + 1) rest acc
    else
      importScan genIds now (i + 1) rest (acc.1, acc.2 ++ [importErrString i validation.errors])

/-- PlaylistManager.importPlaylist. -/
def importPlaylist (s : PMState) (genIds : ℕ → String) (now : String)
    (input : ImportInput) : PMState × ImportResult :=
  match input with
  | .parseFailure msg =>
    (s, { success := false, message := ("Failed to parse JSON: ") ++ msg })
  | .doc none _ => (s, { success := false, message := msgInvalidFormat })
  | .doc (some entries) loopVal =>
    let scanned := importScan genIds now 0 entries ([], [])
    if scanned.1.length = 0 then
      (s, { success := false, message := msgNoValid })
    else
      ({ playlist := scanned.1, currentIndex := 0, loopEnabled := loopVal.truthy },
       { success := true
         message := ("Imported ") ++ toString scanned.1.length ++ (" videos")
         imported := scanned.1.length
         errors := scanned.2 })

/-! ## PlayerManager.js — the Playback Monitor

State machine driven by three external stimuli: provider state-change events
(`handleStateChange`), the 100 ms polling tick (`checkSegmentEnd`, run only
while the progress interval is active), and `loadVideo`.  `currentTime` is the
provider reading at the moment of the tick, passed as an argument.  Volume
side effects of the fade routines are reduced to the `volumeFading` flag
(`isVolumeFading()`); progress events go to a separate callback and are not
modelled.  `emittedStateChanges` records every invocation of the registered
`onStateChangeCallback` with its `event.data` code. -/

def YT_UNSTARTED : Int := -1
def YT_ENDED : Int := 0
def YT_PLAYING : Int := 1
def YT_PAUSED : Int := 2
def YT_BUFFERING : Int := 3
def YT_CUED : Int := 5

structure PlayerState where
  isReady : Bool
  currentVideoData : Option Video
  hasSegmentEnded : Bool
  progressTracking : Bool
  volumeFading : Bool
  enableVolumeFade : Bool
  fadeOutDuration : ℚ
  emittedStateChanges : List Int
deriving DecidableEq

/-- PlayerManager.loadVideo: rejects when not ready or no data; otherwise
stores the video and resets the `hasSegmentEnded` latch (the volume/fade-in
side effects touch only the provider). -/
def loadVideo (s : PlayerState) (videoData : Option Video) : PlayerState × Bool :=
  if ¬ s.isReady ∨ videoData.isNone then (s, false)
  else ({ s with currentVideoData := videoData, hasSegmentEnded := false }, true)

/-- PlayerManager.handleStateChange: starts/stops the progress interval by
state, lets ENDED additionally run the internal `handleVideoEnd` (which only
stops tracking), and forwards every event to `onStateChangeCallback`
unconditionally. -/
def handleStateChange (s : PlayerState) (code : Int) : PlayerState :=
  let s1 :=
    if code = YT_PLAYING then { s with progressTracking := true }
    else if code = YT_PAUSED ∨ code = YT_ENDED ∨ code = YT_BUFFERING then
      { s with progressTracking := false }
    else s
  let s2 := if code = YT_ENDED then { s1 with progressTracking := false } else s1
  { s2 with emittedStateChanges := s2.emittedStateChanges ++ [code] }

/-- PlayerManager.checkSegmentEnd: no-op without a loaded video, a truthy
`endTime`, or once the latch is set; otherwise possibly start the fade-out,
and on `currentTime >= endTime` set the latch, stop tracking and emit ENDED
through the state-change callback. -/
def checkSegmentEnd (s : PlayerState) (currentTime : ℚ) : PlayerState :=
  match s.currentVideoData with
  | none => s
  | some vd =>
    if ¬ vd.endTime.truthy ∨ s.hasSegmentEnded then s
    else
      let endTime := vd.endTime.asNum
      let segmentFadeEnabled :=
        if vd.enableFade ≠ .undef then vd.enableFade.truthy else s.enableVolumeFade
      let s1 :=
        if segmentFadeEnabled ∧ endTime - s.fadeOutDuration ≤ currentTime ∧
           ¬ s.hasSegmentEnded ∧ ¬ s.volumeFading then
          { s with volumeFading := true }
        else s
      if endTime ≤ currentTime then
        { s1 with
          hasSegmentEnded := true
          progressTracking := false
          emittedStateChanges := s1.emittedStateChanges ++ [YT_ENDED] }
      else s1

/-- One firing of the 100 ms progress interval (only runs while tracking). -/
def pollTick (s : PlayerState) (currentTime : ℚ) : PlayerState :=
  if s.progressTracking then checkSegmentEnd s currentTime else s

inductive PlayerEvent where
  | provider (code : Int)
  | tick (t : ℚ)
  | load (videoData : Option Video)

def playerStep (s : PlayerState) : PlayerEvent → PlayerState
  | .provider code => handleStateChange s code
  | .tick t => pollTick s t
  | .load vd => (loadVideo s vd).1

def playerRun (s : PlayerState) (evs : List PlayerEvent) : PlayerState :=
  evs.foldl playerStep s

/-- Number of ENDED signals delivered to the state-change callback. -/
def endSignalCount (s : PlayerState) : ℕ :=
  s.emittedStateChanges.count YT_ENDED

def ticksRun (s : PlayerState) (ts : List ℚ) : PlayerState := ts.foldl pollTick s

/-! ## YouTubeSegmentsEngine — the Playback Orchestrator

`handleVideoEnd` is `async` with its awaits (transition screen / applause
audio) strictly between the latch check-and-set and the playlist advance; the
synchronous prefix is `hveBegin` (which also starts the decorative effects)
and the post-await remainder is `hveFinish`.  A competing invocation can only
be interleaved at the await, i.e. between the two.  The 1000 ms cooldown that
finally clears the latch is the separate step `hveCooldownReset`.
`nextCalls`/`loadCalls` count calls to the store's `next()` and to
`loadCurrentVideo` (the latter fired by the `onCurrentIndexChange`
subscription); `countdownShows`/`applausePlays` count transition-screen
displays and crowd-cheer playbacks. -/

structure EngineConfig where
  autoAdvance : Bool
  enableAudioEffects : Bool
  enableTransitionScreen : Bool
  transitionDuration : ℚ
deriving DecidableEq

inductive EngineEvent where
  | currentChanged (index : ℕ)
  | autoAdvanced (success : Bool) (fromIndex toIndex : ℕ) (isLoopTransition : Bool)
  | playlistEnded
deriving DecidableEq

structure EngineState where
  pm : PMState
  config : EngineConfig
  isPlayerReady : Bool
  isHandlingVideoEnd : Bool
  audioManagerPresent : Bool
  transitionScreenPresent : Bool
  nextCalls : ℕ
  loadCalls : ℕ
  countdownShows : ℕ
  applausePlays : ℕ
  events : List EngineEvent
deriving DecidableEq

/-- The locals of `handleVideoEnd` computed before the awaits. -/
structure AdvanceLocals where
  currentIndex : ℕ
  nextVideo : Option Video
  actualNextVideo : Option Video
  hasNextOrLoop : Bool
deriving DecidableEq

/-- The `onCurrentIndexChange` subscriber installed by `connectComponents`:
emits the current-changed notification and, when the player is ready and a
video exists at the pointer, loads it. -/
def engineNotifyIndexChange (s : EngineState) : EngineState :=
  let s1 := { s with events := s.events ++ [.currentChanged s.pm.currentIndex] }
  if s1.isPlayerReady ∧ (getCurrentVideo s1.pm).isSome then
    { s1 with loadCalls := s1.loadCalls + 1 }
  else s1

/-- `this.playlistManager.next()` as observed by the engine: the store
advances and, on success, its `notifyCurrentIndexChange` runs the engine's
subscriber. -/
def engineNext (s : EngineState) : EngineState × Bool :=
  let r := next s.pm
  let s1 := { s with pm := r.1, nextCalls := s.nextCalls + 1 }
  if r.2 then (engineNotifyIndexChange s1, true) else (s1, false)

/-- Synchronous prefix of `handleVideoEnd`: drop if the latch is set; else set
it, snapshot the locals, and start the transition screen and/or applause
audio per the config (the transition branch requires both the screen to be
enabled and an upcoming video; otherwise audio alone plays if enabled). -/
def hveBegin (s : EngineState) : EngineState × Option AdvanceLocals :=
  if s.isHandlingVideoEnd then (s, none)
  else
    let s0 := { s with isHandlingVideoEnd := true }
    let nextVideo := getNextVideo s.pm
    let hasNextOrLoop := hasNext s.pm
    let shouldShowTransition := s.config.enableTransitionScreen ∧ s.transitionScreenPresent
    let actualNextVideo :=
      if nextVideo.isNone ∧ s.pm.loopEnabled ∧ 0 < s.pm.playlist.length then
        getVideo s.pm 0
      else nextVideo
    let s1 :=
      if shouldShowTransition ∧ actualNextVideo.isSome then
        { s0 with
          countdownShows := s0.countdownShows + 1
          applausePlays := s0.applausePlays +
            (if s.config.enableAudioEffects ∧ s.audioManagerPresent then 1 else 0) }
      else if s.config.enableAudioEffects ∧ s.audioManagerPresent then
        { s0 with applausePlays := s0.applausePlays + 1 }
      else s0
    (s1, some { currentIndex := s.pm.currentIndex, nextVideo := nextVideo,
                actualNextVideo := actualNextVideo, hasNextOrLoop := hasNextOrLoop })

/-- Post-await remainder of `handleVideoEnd`: commit the advance through the
store when a next (or loop target) exists, emitting `playlist:autoAdvanced`;
otherwise emit `playlist:ended`.  The latch stays set until the cooldown. -/
def hveFinish (s : EngineState) (l : AdvanceLocals) : EngineState :=
  if l.hasNextOrLoop then
    let r := engineNext s
    { r.1 with events := r.1.events ++
        [.autoAdvanced r.2 l.currentIndex r.1.pm.currentIndex
          (l.nextVideo.isNone && r.1.pm.loopEnabled)] }
  else { s with events := s.events ++ [.playlistEnded] }

/-- The 1000 ms cooldown timer that releases the latch. -/
def hveCooldownReset (s : EngineState) : EngineState :=
  { s with isHandlingVideoEnd := false }

/-- `handleVideoEnd` run without interleaving. -/
def handleVideoEnd (s : EngineState) : EngineState :=
  match hveBegin s with
  | (s1, none) => s1
  | (s1, some l) => hveFinish s1 l

/-- The race of the claim: a duplicate `handleVideoEnd` invocation arrives at
the suspension point of an in-flight one (after its latch set and effects,
before its advance), then the first invocation resumes. -/
def handleVideoEndRace (s : EngineState) : EngineState :=
  match hveBegin s with
  | (s1, none) => s1
  | (s1, some l) => hveFinish (handleVideoEnd s1) l

/-! ## Reference-heap model for `getPlaylist()`

`return [...this.playlist]` allocates a fresh array.  To state that the
returned array does not alias the store's internal one, arrays are modelled
as references into a heap; `[...]` is an allocation initialised with the
source contents. -/

structure ArrayHeap where
  arrays : ℕ → List Video
  nextRef : ℕ

structure StoreRT where
  heap : ArrayHeap
  playlistRef : ℕ
  currentIndex : ℕ
  loopEnabled : Bool

/-- References handed out so far live below `nextRef`. -/
def StoreRT.wf (st : StoreRT) : Prop := st.playlistRef < st.heap.nextRef

def heapWrite (h : ArrayHeap) (r : ℕ) (xs : List Video) : ArrayHeap :=
  { h with arrays := fun i => if i = r then xs else h.arrays i }

def heapAlloc (h : ArrayHeap) (xs : List Video) : ArrayHeap × ℕ :=
  ({ arrays := fun i => if i = h.nextRef then xs else h.arrays i
     nextRef := h.nextRef + 1 }, h.nextRef)

/-- The store's internal playlist contents. -/
def storeContents (st : StoreRT) : List Video := st.heap.arrays st.playlistRef

/-- `getPlaylist()` on the heap model: allocate `[...playlist]` and return
the new reference. -/
def getPlaylistRT (st : StoreRT) : StoreRT × ℕ :=
  let r := heapAlloc st.heap (storeContents st)
  ({ st with heap := r.1 }, r.2)

/-- A caller mutating an array it holds a reference to, in place (push,
splice, sort, ... — any contents transformation). -/
def mutateArrayRT (st : StoreRT) (r : ℕ) (f : List Video → List Video) : StoreRT :=
  { st with heap := heapWrite st.heap r (f (st.heap.arrays r)) }

/-- `getLength()` on the heap model. -/
def getLengthRT (st : StoreRT) : ℕ := (storeContents st).length

/-! ## Shared concrete fixtures (used by witnesses and counterexamples) -/

/-- Segment A of the scenario playlist `[A(0,30), B(10,40)]`. -/
def vidA : Video :=
  { vid := .str ("a"), url := .str ("dQw4w9WgXcQ"), videoId := some ("dQw4w9WgXcQ")
    startTime := .num 0, endTime := .num 30, title := .str ("A"), dateAdded := .str ("d") }

/-- Segment B of the scenario playlist. -/
def vidB : Video :=
  { vid := .str ("b"), url := .str ("abcdefghijk"), videoId := some ("abcdefghijk")
    startTime := .num 10, endTime := .num 40, title := .str ("B"), dateAdded := .str ("d") }

/-- Two-segment store state, pointer at A. -/
def pmAB : PMState := { playlist := [vidA, vidB], currentIndex := 0, loopEnabled := false }

/-! ## C3 — next/previous boundary behaviour -/

/-- C3: `next()`/`previous()` keep the pointer inside `[0, length-1]` and do
not touch the playlist; at the last index `next()` is a rejected no-op
without looping and wraps to 0 with looping; symmetrically `previous()` at
index 0. -/
theorem next_previous_bounds (s : PMState) (h : s.currentIndex < s.playlist.length) :
    ((next s).1.currentIndex < (next s).1.playlist.length) ∧
    ((next s).1.playlist = s.playlist) ∧
    ((previous s).1.currentIndex < (previous s).1.playlist.length) ∧
    ((previous s).1.playlist = s.playlist) ∧
    (s.currentIndex = s.playlist.length - 1 → s.loopEnabled = false →
      next s = (s, false)) ∧
    (s.currentIndex = s.playlist.length - 1 → s.loopEnabled = true →
      next s = ({ s with currentIndex := 0 }, true)) ∧
    (s.currentIndex = 0 → s.loopEnabled = false → previous s = (s, false)) ∧
    (s.currentIndex = 0 → s.loopEnabled = true →
      previous s = ({ s with currentIndex := s.playlist.length - 1 }, true)) := by
  have hlen : 0 < s.playlist.length := Nat.lt_of_le_of_lt (Nat.zero_le _) h
  refine ⟨?_, ?_, ?_, ?_, ?_, ?_, ?_, ?_⟩
  · unfold next; split_ifs <;> simp <;> omega
  · unfold next; split_ifs <;> simp
  · unfold previous; split_ifs <;> simp <;> omega
  · unfold previous; split_ifs <;> simp
  · intro hlast hloop
    unfold next
    rw [if_neg (by omega), if_neg (by omega), if_neg (by simp [hloop])]
  · intro hlast hloop
    unfold next
    rw [if_neg (by omega), if_neg (by omega), if_pos (by simp [hloop])]
  · intro hfirst hloop
    unfold previous
    rw [if_neg (by omega), if_neg (by omega), if_neg (by simp [hloop])]
  · intro hfirst hloop
    unfold previous
    rw [if_neg (by omega), if_neg (by omega), if_pos (by simp [hloop])]

/-- Witness for C3 at the concrete two-segment store with the pointer at the
last index and loop disabled. -/
theorem next_previous_bounds_witness :
    ({ pmAB with currentIndex := 1 } : PMState).currentIndex <
      ({ pmAB with currentIndex := 1 } : PMState).playlist.length ∧
    next { pmAB with currentIndex := 1 } = ({ pmAB with currentIndex := 1 }, false) :=
  ⟨by decide,
   (next_previous_bounds { pmAB with currentIndex := 1 } (by decide)).2.2.2.2.1
     (by decide) (by decide)⟩

/-! ## C5 — removeVideo pointer adjustment -/

/-- C5: `removeVideo` rejects out-of-range indices unchanged; in range it
deletes the entry and adjusts the pointer: minus one when the removed index
precedes it, clamped to the new last index when the removed index is the
pointer and the pointer would fall off the end, unchanged otherwise. -/
theorem removeVideo_spec (s : PMState) (index : Int)
    (hcur : s.currentIndex < s.playlist.length) :
    ((index < 0 ∨ (s.playlist.length : Int) ≤ index) → removeVideo s index = (s, false)) ∧
    (0 ≤ index → index < (s.playlist.length : Int) →
      ((removeVideo s index).2 = true ∧
       (removeVideo s index).1.playlist = s.playlist.eraseIdx index.toNat ∧
       (removeVideo s index).1.playlist.length + 1 = s.playlist.length ∧
       (index < (s.currentIndex : Int) →
         (removeVideo s index).1.currentIndex + 1 = s.currentIndex) ∧
       (index = (s.currentIndex : Int) → s.currentIndex + 1 = s.playlist.length →
         (removeVideo s index).1.currentIndex = (s.playlist.length - 1) - 1) ∧
       (((s.currentIndex : Int) < index ∨
          (index = (s.currentIndex : Int) ∧ s.currentIndex + 1 < s.playlist.length)) →
         (removeVideo s index).1.currentIndex = s.currentIndex))) := by
  constructor
  · intro hout
    unfold removeVideo
    rw [if_pos hout]
  · intro h0 hlt
    have hi : index.toNat < s.playlist.length := by omega
    have hlenE : (s.playlist.eraseIdx index.toNat).length = s.playlist.length - 1 :=
      List.length_eraseIdx_of_lt hi
    have hnout : ¬ (index < 0 ∨ (s.playlist.length : Int) ≤ index) := by push_neg; omega
    simp only [removeVideo, hnout, if_false, hlenE]
    refine ⟨trivial, trivial, by omega, ?_, ?_, ?_⟩
    · intro hbefore
      split_ifs with h1 h2 <;> push_neg at * <;> omega
    · intro heq hend
      split_ifs with h1 h2 <;> push_neg at * <;> omega
    · intro hother
      rcases hother with hgt | ⟨heq, hroom⟩ <;>
        · split_ifs with h1 h2 <;> push_neg at * <;> omega

/-- Witness for C5: removing index 0 of the concrete two-segment store while
the pointer is at 1 decrements the pointer to 0. -/
theorem removeVideo_spec_witness :
    (0 : Int) ≤ 0 ∧ (0 : Int) < (({ pmAB with currentIndex := 1 } : PMState).playlist.length : Int) ∧
    (removeVideo { pmAB with currentIndex := 1 } 0).1.currentIndex + 1 = 1 :=
  ⟨by decide, by decide,
   ((removeVideo_spec { pmAB with currentIndex := 1 } 0 (by decide)).2
     (by decide) (by decide)).2.2.2.1 (by decide)⟩

/-! ## C6 — moveVideo pointer re-derivation -/

/-- After splicing the element at `fn` out and back in at `tn`, the list keeps
its length, the moved element sits at `tn`, and the source's pointer
adjustment keeps the pointer on the element it referenced before. -/
theorem insert_erase_tracks {α : Type} (l : List α) (fn tn cur : ℕ)
    (hf : fn < l.length) (ht : tn < l.length) (hc : cur < l.length)
    (v : α) (hv : l[fn]? = some v) :
    ((l.eraseIdx fn).insertIdx tn v).length = l.length ∧
    ((l.eraseIdx fn).insertIdx tn v)[tn]? = l[fn]? ∧
    (let cur' := if fn = cur then tn
      else if fn < cur ∧ cur ≤ tn then cur - 1
      else if cur < fn ∧ tn ≤ cur then cur + 1
      else cur
     cur' < l.length ∧ ((l.eraseIdx fn).insertIdx tn v)[cur']? = l[cur]?) := by
  have hlenE : (l.eraseIdx fn).length = l.length - 1 := List.length_eraseIdx_of_lt hf
  have htE : tn ≤ (l.eraseIdx fn).length := by omega
  have hlenP : ((l.eraseIdx fn).insertIdx tn v).length = l.length := by
    rw [List.length_insertIdx tn _ htE, hlenE]; omega
  have hvget : l[fn] = v := by
    have := List.getElem?_eq_getElem hf
    rw [hv] at this; exact (Option.some.injEq _ _).mp this.symm
  have hat : ((l.eraseIdx fn).insertIdx tn v)[tn]? = some v := by
    have h1 : tn < ((l.eraseIdx fn).insertIdx tn v).length := by omega
    rw [List.getElem?_eq_getElem h1, List.getElem_insertIdx_self _ _ _ htE]
  refine ⟨hlenP, by rw [hat, hv], ?_⟩
  have key : ∀ c' : ℕ, c' < l.length →
      (c' < tn → (c' < fn → ((l.eraseIdx fn).insertIdx tn v)[c']? = l[c']?) ∧
        (fn ≤ c' → ((l.eraseIdx fn).insertIdx tn v)[c']? = l[c' + 1]?)) := by
    intro c' hc' hct
    have hcE : c' < (l.eraseIdx fn).length := by omega
    have hcP : c' < ((l.eraseIdx fn).insertIdx tn v).length := by omega
    constructor
    · intro hcf
      rw [List.getElem?_eq_getElem hcP,
          List.getElem_insertIdx_of_lt _ _ _ _ hct hcE,
          List.getElem_eraseIdx_of_lt _ _ _ hcE hcf,
          List.getElem?_eq_getElem hc']
    · intro hfc
      have hs : c' + 1 < l.length := by omega
      rw [List.getElem?_eq_getElem hcP,
          List.getElem_insertIdx_of_lt _ _ _ _ hct hcE,
          List.getElem_eraseIdx_of_ge _ _ _ hcE hfc,
          List.getElem?_eq_getElem hs]
  have keyGt : ∀ k : ℕ, tn + k < (l.eraseIdx fn).length →
      ((l.eraseIdx fn).insertIdx tn v)[tn + k + 1]? = (l.eraseIdx fn)[tn + k]? := by
    intro k hk
    have h2 : tn + k + 1 < ((l.eraseIdx fn).insertIdx tn v).length := by omega
    rw [List.getElem?_eq_getElem h2, List.getElem_insertIdx_add_succ _ _ _ _ hk,
        List.getElem?_eq_getElem hk]
  have eraseAt : ∀ c' : ℕ, c' < (l.eraseIdx fn).length →
      ((c' < fn → (l.eraseIdx fn)[c']? = l[c']?) ∧
       (fn ≤ c' → (l.eraseIdx fn)[c']? = l[c' + 1]?)) := by
    intro c' hcE
    constructor
    · intro hcf
      have hc' : c' < l.length := by omega
      rw [List.getElem?_eq_getElem hcE, List.getElem_eraseIdx_of_lt _ _ _ hcE hcf,
          List.getElem?_eq_getElem hc']
    · intro hfc
      have hs : c' + 1 < l.length := by omega
      rw [List.getElem?_eq_getElem hcE, List.getElem_eraseIdx_of_ge _ _ _ hcE hfc,
          List.getElem?_eq_getElem hs]
  split_ifs with h1 h2 h3
  · -- moved element was the pointer
    subst h1
    exact ⟨ht, by rw [hat, hv]⟩
  · -- window shifted the pointer left
    obtain ⟨hfc, hct⟩ := h2
    refine ⟨by omega, ?_⟩
    rcases Nat.lt_or_ge (cur - 1) tn with hlt | hge
    · have := (key (cur - 1) (by omega) hlt).2 (by omega)
      rw [this]
      congr 1
      omega
    · -- impossible: fn < cur forces cur ≥ 1, so tn ≤ cur - 1 < cur ≤ tn
      exfalso; omega
  · -- window shifted the pointer right
    obtain ⟨hcf, htc⟩ := h3
    refine ⟨by omega, ?_⟩
    obtain ⟨k, rfl⟩ : ∃ k, cur = tn + k := ⟨cur - tn, by omega⟩
    rw [keyGt k (by omega)]
    exact (eraseAt (tn + k) (by omega)).1 (by omega)
  · -- pointer untouched
    refine ⟨hc, ?_⟩
    push_neg at h1 h2 h3
    rcases Nat.lt_or_ge cur fn with hcf | hfc
    · -- cur < fn, and (by h3) tn > cur
      have hct : cur < tn := by
        rcases Nat.lt_or_ge cur tn with h | h
        · exact h
        · exact absurd (h3 hcf) (by omega)
      exact (key cur hc hct).1 hcf
    · -- fn < cur (fn ≠ cur), and (by h2) tn < cur
      have hfc' : fn < cur := by omega
      have htc : tn < cur := by
        rcases Nat.lt_or_ge tn cur with h | h
        · exact h
        · exact absurd (h2 hfc') (by omega)
      obtain ⟨k, rfl⟩ : ∃ k, cur = tn + k + 1 := ⟨cur - tn - 1, by omega⟩
      rw [keyGt k (by omega)]
      have := (eraseAt (tn + k) (by omega)).2 (by omega)
      rw [this]

/-- C6: `moveVideo` rejects out-of-range or equal indices unchanged; in range
it relocates the segment from `fromIndex` to `toIndex` and re-derives the
pointer so it still references the segment it pointed to before. -/
theorem moveVideo_spec (s : PMState) (f t : Int)
    (hcur : s.currentIndex < s.playlist.length) :
    ((f < 0 ∨ (s.playlist.length : Int) ≤ f ∨ t < 0 ∨ (s.playlist.length : Int) ≤ t ∨
       f = t) → moveVideo s f t = (s, false)) ∧
    (0 ≤ f → f < (s.playlist.length : Int) → 0 ≤ t → t < (s.playlist.length : Int) →
      f ≠ t →
      ((moveVideo s f t).2 = true ∧
       (moveVideo s f t).1.playlist.length = s.playlist.length ∧
       (moveVideo s f t).1.currentIndex < (moveVideo s f t).1.playlist.length ∧
       (moveVideo s f t).1.playlist[t.toNat]? = s.playlist[f.toNat]? ∧
       (moveVideo s f t).1.playlist[(moveVideo s f t).1.currentIndex]? =
         s.playlist[s.currentIndex]?)) := by
  constructor
  · intro hout
    unfold moveVideo
    rw [if_pos hout]
  · intro hf0 hflt ht0 htlt hne
    have hfn : f.toNat < s.playlist.length := by omega
    have htn : t.toNat < s.playlist.length := by omega
    have hv : s.playlist[f.toNat]? = some (s.playlist.get ⟨f.toNat, hfn⟩) :=
      List.getElem?_eq_getElem hfn
    have hnout : ¬ (f < 0 ∨ (s.playlist.length : Int) ≤ f ∨ t < 0 ∨
        (s.playlist.length : Int) ≤ t ∨ f = t) := by push_neg; exact ⟨hf0, hflt, ht0, htlt, hne⟩
    have htr := insert_erase_tracks s.playlist f.toNat t.toNat s.currentIndex
      hfn htn hcur _ hv
    simp only at htr
    have hlen := htr.1
    have hatT := htr.2.1
    have hcureq := htr.2.2.2
    simp only [moveVideo, hnout, if_false, hv]
    refine ⟨trivial, hlen, ?_, hatT.trans hv, ?_⟩
    · rw [hlen]
      split_ifs with h1 h2 h3 <;> omega
    · split_ifs with h1 h2 h3
      · rw [if_pos (show f.toNat = s.currentIndex by omega)] at hcureq
        exact hcureq
      · rw [if_neg (show ¬ f.toNat = s.currentIndex by omega),
            if_pos (show f.toNat < s.currentIndex ∧ s.currentIndex ≤ t.toNat by omega)]
          at hcureq
        exact hcureq
      · rw [if_neg (show ¬ f.toNat = s.currentIndex by omega),
            if_neg (show ¬ (f.toNat < s.currentIndex ∧ s.currentIndex ≤ t.toNat) by omega),
            if_pos (show s.currentIndex < f.toNat ∧ t.toNat ≤ s.currentIndex by omega)]
          at hcureq
        exact hcureq
      · rw [if_neg (show ¬ f.toNat = s.currentIndex by omega),
            if_neg (show ¬ (f.toNat < s.currentIndex ∧ s.currentIndex ≤ t.toNat) by omega),
            if_neg (show ¬ (s.currentIndex < f.toNat ∧ t.toNat ≤ s.currentIndex) by omega)]
          at hcureq
        exact hcureq

/-- Witness for C6: moving index 0 to index 1 in the concrete two-segment
store with the pointer at 0 keeps the pointer on segment A. -/
theorem moveVideo_spec_witness :
    (0 : Int) ≤ 0 ∧ (0 : Int) ≠ 1 ∧
    (moveVideo pmAB 0 1).1.playlist[(moveVideo pmAB 0 1).1.currentIndex]? =
      pmAB.playlist[pmAB.currentIndex]? :=
  ⟨by decide, by decide,
   ((moveVideo_spec pmAB 0 1 (by decide)).2 (by decide) (by decide) (by decide)
     (by decide) (by decide)).2.2.2.2⟩

/-! ## C4 — the exact-tuple duplicate invariant -/

/-- No two playlist entries share the `(videoId, startTime, endTime)` tuple. -/
def noDupTuples (l : List Video) : Prop :=
  l.Pairwise fun a b => ¬ SameTuple a b

/-- Executable check for `noDupTuples`. -/
def noDupTuplesB : List Video → Bool
  | [] => true
  | v :: rest => (rest.all fun w => !decide (SameTuple v w)) && noDupTuplesB rest

theorem noDupTuplesB_iff (l : List Video) : noDupTuplesB l = true ↔ noDupTuples l := by
  induction l with
  | nil => simp [noDupTuplesB, noDupTuples]
  | cons v rest ih =>
    simp [noDupTuplesB, noDupTuples, List.pairwise_cons, List.all_eq_true, ih,
      and_comm, noDupTuples] at *

theorem sameTuple_symm {a b : Video} (h : SameTuple a b) : SameTuple b a :=
  ⟨h.1.symm, h.2.1.symm, h.2.2.symm⟩

theorem noDup_append_single {l : List Video} {v : Video} (h : noDupTuples l)
    (hv : ∀ x ∈ l, ¬ SameTuple x v) : noDupTuples (l ++ [v]) := by
  rw [noDupTuples, List.pairwise_append]
  refine ⟨h, List.pairwise_singleton _ _, fun a ha b hb => ?_⟩
  rcases List.mem_singleton.mp hb with rfl
  exact hv a ha

theorem addVideo_preserves_noDup (s : PMState) (g now : String)
    (vd : Option CandidateData) (h : noDupTuples s.playlist) :
    noDupTuples ((addVideo s g now vd).1.playlist) := by
  simp only [addVideo]
  split
  · exact h
  · split
    · exact h
    · split
      · exact h
      · split
        · exact h
        · rename_i hany
          apply noDup_append_single h
          intro x hx hsx
          exact hany (List.any_eq_true.mpr ⟨x, hx, by simpa using hsx⟩)

theorem updateVideo_preserves_noDup (s : PMState) (now : String) (index : Int)
    (vd : Option CandidateData) (h : noDupTuples s.playlist) :
    noDupTuples ((updateVideo s now index vd).1.playlist) := by
  simp only [updateVideo]
  split
  · exact h
  · split
    · exact h
    · split
      · exact h
      · split
        · exact h
        · split
          · exact h
          · split
            · exact h
            · rename_i hany
              rw [noDupTuples, List.pairwise_iff_getElem] at h ⊢
              have hnodup : ∀ (j : ℕ) (hj : j < s.playlist.length), j ≠ index.toNat →
                  ∀ updated, (s.playlist.enum.any fun p =>
                    decide (p.1 ≠ index.toNat) && decide (SameTuple p.2 updated)) = false →
                  ¬ SameTuple (s.playlist.get ⟨j, hj⟩) updated := by
                intro j hj hjn updated hfalse hsame
                have hmem : (j, s.playlist[j]) ∈ s.playlist.enum :=
                  List.mk_mem_enum_iff_getElem?.mpr (List.getElem?_eq_getElem hj)
                have := List.any_eq_false.mp hfalse _ hmem
                simp only [Bool.and_eq_true, decide_eq_true_eq, not_and] at this
                exact this hjn hsame
              intro i j hi hj hij
              simp only [List.length_set] at hi hj
              rw [List.getElem_set, List.getElem_set]
              split
              · split
                · omega
                · rename_i hni hnj
                  intro hsame
                  exact hnodup j hj (fun hh => hnj hh.symm) _
                    (Bool.eq_false_iff.mpr hany) (sameTuple_symm hsame)
              · split
                · rename_i hni hnj
                  intro hsame
                  exact hnodup i hi (fun hh => hni hh.symm) _
                    (Bool.eq_false_iff.mpr hany) hsame
                · exact h i j hi hj hij

theorem removeVideo_preserves_noDup (s : PMState) (index : Int)
    (h : noDupTuples s.playlist) :
    noDupTuples ((removeVideo s index).1.playlist) := by
  simp only [removeVideo]
  split
  · exact h
  · exact List.Pairwise.sublist (List.eraseIdx_sublist _ _) h

theorem insertIdx_perm {α : Type} (v : α) :
    ∀ (t : ℕ) (xs : List α), t ≤ xs.length → (xs.insertIdx t v).Perm (v :: xs)
  | 0, xs, _ => by simp
  | t + 1, [], h => by simp at h
  | t + 1, x :: rest, h => by
    simp only [List.insertIdx_succ_cons]
    exact (List.Perm.cons x (insertIdx_perm v t rest (by simpa using h))).trans
      (List.Perm.swap v x rest)

theorem cons_eraseIdx_perm {α : Type} :
    ∀ (l : List α) (f : ℕ) (v : α), l[f]? = some v → l.Perm (v :: l.eraseIdx f)
  | [], f, v, hv => by simp at hv
  | x :: rest, 0, v, hv => by
    simp only [List.getElem?_cons_zero, Option.some.injEq] at hv
    subst hv
    simp
  | x :: rest, f + 1, v, hv => by
    have hv' : rest[f]? = some v := by simpa using hv
    have hrec := cons_eraseIdx_perm rest f v hv'
    have hstep : (x :: rest).eraseIdx (f + 1) = x :: rest.eraseIdx f := rfl
    rw [hstep]
    exact (List.Perm.cons x hrec).trans (List.Perm.swap v x _)

theorem moveVideo_preserves_noDup (s : PMState) (f t : Int)
    (h : noDupTuples s.playlist) :
    noDupTuples ((moveVideo s f t).1.playlist) := by
  simp only [moveVideo]
  split
  · exact h
  · rename_i hin
    push_neg at hin
    split
    · exact h
    · rename_i video hv
      have hfn : f.toNat < s.playlist.length := by omega
      have htE : t.toNat ≤ (s.playlist.eraseIdx f.toNat).length := by
        rw [List.length_eraseIdx_of_lt hfn]; omega
      have hperm : s.playlist.Perm ((s.playlist.eraseIdx f.toNat).insertIdx t.toNat video) :=
        (cons_eraseIdx_perm _ _ _ hv).trans (insertIdx_perm video _ _ htE).symm
      exact List.Pairwise.perm h hperm fun hx hsym => hx (sameTuple_symm hsym)

/-- Decompose a successful `addVideo`. -/
theorem addVideo_success_shape (s : PMState) (g now : String) (v : CandidateData)
    (hs : (addVideo s g now (some v)).2.success = true) :
    (validateVideoData (some v)).isValid = true ∧
    ∃ videoId, extractVideoId v.url = some videoId ∧
      (addVideo s g now (some v)).1.playlist =
        s.playlist ++ [mkAddedVideo s g now v videoId] := by
  revert hs
  simp only [addVideo]
  split
  · intro hs; simp at hs
  · rename_i hvalid
    split
    · intro hs; simp at hs
    · rename_i hext
      split
      · intro hs; simp at hs
      · intro _
        exact ⟨by simpa using hvalid, _, hext, rfl⟩

/-- A second add whose constructed video tuple already occurs is rejected
with the store unchanged. -/
theorem addVideo_dup_rejected (s : PMState) (g now : String) (v : CandidateData)
    (hvalid : (validateVideoData (some v)).isValid = true)
    (videoId : String) (hext : extractVideoId v.url = some videoId)
    (hdup : (s.playlist.any fun item =>
      decide (SameTuple item (mkAddedVideo s g now v videoId))) = true) :
    addVideo s g now (some v) = (s, { success := false, message := msgDupAdd }) := by
  simp only [addVideo, hvalid, hext]
  rw [if_neg (by simp), if_pos hdup]

/-- C4 counterexample: `duplicateVideo` inserts an exact-tuple copy, so the
invariant fails right after a duplicate of a freshly added segment. -/
def candA : CandidateData :=
  { url := .str ("dQw4w9WgXcQ"), startTime := .num 5, endTime := .num 10,
    title := .str ("A") }

theorem duplicate_breaks_tuple_invariant :
    (duplicateVideo (addVideo initialPM ("id1") ("d1") (some candA)).1
      ("id2") ("d2") 0).2 = true ∧
    noDupTuplesB ((duplicateVideo (addVideo initialPM ("id1") ("d1") (some candA)).1
      ("id2") ("d2") 0).1.playlist) = false ∧
    ¬ noDupTuples ((duplicateVideo (addVideo initialPM ("id1") ("d1") (some candA)).1
      ("id2") ("d2") 0).1.playlist) :=
  ⟨by decide, by decide,
   fun h => absurd ((noDupTuplesB_iff _).mpr h) (by decide)⟩

/-- C4 (amended): the exact-tuple invariant is preserved by add, update,
remove, move and clear — in particular a second add of an identical
`(resolvedId, startOffset, endOffset)` is rejected and leaves the store
unchanged — but `duplicateVideo` (which inserts an exact copy) is not
invariant-preserving. -/
theorem dup_tuple_invariant_amended (s : PMState) (g1 g2 now1 now2 : String)
    (vd : Option CandidateData) (v : CandidateData) (index f t : Int)
    (hnd : noDupTuples s.playlist) :
    noDupTuples ((addVideo s g1 now1 vd).1.playlist) ∧
    noDupTuples ((updateVideo s now1 index vd).1.playlist) ∧
    noDupTuples ((removeVideo s index).1.playlist) ∧
    noDupTuples ((moveVideo s f t).1.playlist) ∧
    noDupTuples ((clearPlaylist s).playlist) ∧
    ((addVideo s g1 now1 (some v)).2.success = true →
      (addVideo (addVideo s g1 now1 (some v)).1 g2 now2 (some v)).1 =
        (addVideo s g1 now1 (some v)).1 ∧
      (addVideo (addVideo s g1 now1 (some v)).1 g2 now2 (some v)).2.success = false) := by
  refine ⟨addVideo_preserves_noDup s g1 now1 vd hnd,
    updateVideo_preserves_noDup s now1 index vd hnd,
    removeVideo_preserves_noDup s index hnd,
    moveVideo_preserves_noDup s f t hnd,
    List.Pairwise.nil, ?_⟩
  intro hs
  obtain ⟨hvalid, videoId, hext, hpl⟩ := addVideo_success_shape s g1 now1 v hs
  have hmem : mkAddedVideo s g1 now1 v videoId ∈ (addVideo s g1 now1 (some v)).1.playlist := by
    rw [hpl]; exact List.mem_append_right _ (List.mem_singleton.mpr rfl)
  have hsame : SameTuple (mkAddedVideo s g1 now1 v videoId)
      (mkAddedVideo (addVideo s g1 now1 (some v)).1 g2 now2 v videoId) :=
    ⟨rfl, rfl, rfl⟩
  have hany : ((addVideo s g1 now1 (some v)).1.playlist.any fun item =>
      decide (SameTuple item (mkAddedVideo (addVideo s g1 now1 (some v)).1 g2 now2 v videoId)))
      = true :=
    List.any_eq_true.mpr ⟨_, hmem, by simpa using hsame⟩
  have hrej := addVideo_dup_rejected (addVideo s g1 now1 (some v)).1 g2 now2 v
    hvalid videoId hext hany
  rw [hrej]
  exact ⟨rfl, rfl⟩

/-- Witness for the amended C4: the double-add rejection on the empty store
with the concrete candidate. -/
theorem dup_tuple_invariant_amended_witness :
    (addVideo initialPM ("id1") ("d1") (some candA)).2.success = true ∧
    (addVideo (addVideo initialPM ("id1") ("d1") (some candA)).1
      ("id2") ("d2") (some candA)).2.success = false :=
  ⟨by decide,
   ((dup_tuple_invariant_amended initialPM ("id1") ("id2") ("d1") ("d2")
      (some candA) candA 0 0 1 List.Pairwise.nil).2.2.2.2.2 (by decide)).2⟩

/-! ## C7 — importPlaylist -/

/-- Number of entries of the import document that validate. -/
def countValid (entries : List (Option CandidateData)) : ℕ :=
  entries.countP fun e => (validateVideoData e).isValid

/-- The videos of the valid entries, in order, as `importPlaylist` builds
them (`i` is the position of the first entry). -/
def importMapValid (genIds : ℕ → String) (now : String) :
    ℕ → List (Option CandidateData) → List Video
  | _, [] => []
  | i, e :: rest =>
    if (validateVideoData e).isValid then
      match e with
      | some v => importEntryVideo genIds now i v :: importMapValid genIds now (i + 1) rest
      | none => importMapValid genIds now (i + 1) rest
    else importMapValid genIds now (i + 1) rest

/-- The error strings of the invalid entries, in order. -/
def importErrList : ℕ → List (Option CandidateData) → List String
  | _, [] => []
  | i, e :: rest =>
    if (validateVideoData e).isValid then importErrList (i + 1) rest
    else importErrString i (validateVideoData e).errors :: importErrList (i + 1) rest

theorem importScan_eq (genIds : ℕ → String) (now : String) :
    ∀ (entries : List (Option CandidateData)) (i : ℕ) (accV : List Video)
      (accE : List String),
      importScan genIds now i entries (accV, accE) =
        (accV ++ importMapValid genIds now i entries, accE ++ importErrList i entries)
  | [], i, accV, accE => by simp [importScan, importMapValid, importErrList]
  | e :: rest, i, accV, accE => by
    simp only [importScan, importMapValid, importErrList]
    split
    · split
      · rw [importScan_eq genIds now rest (i + 1)]
        simp
      · rw [importScan_eq genIds now rest (i + 1)]
    · rw [importScan_eq genIds now rest (i + 1)]
      simp

theorem importMapValid_length (genIds : ℕ → String) (now : String) :
    ∀ (entries : List (Option CandidateData)) (i : ℕ),
      (importMapValid genIds now i entries).length = countValid entries
  | [], _ => by simp [importMapValid, countValid]
  | e :: rest, i => by
    simp only [importMapValid, countValid, List.countP_cons]
    have hrec := importMapValid_length genIds now rest (i + 1)
    simp only [countValid] at hrec
    split
    · rename_i hvalid
      split
      · simp only [List.length_cons]
        omega
      · -- unreachable: a null entry never validates
        exact absurd hvalid (by simp [validateVideoData])
    · omega

theorem importErrList_length :
    ∀ (entries : List (Option CandidateData)) (i : ℕ),
      (importErrList i entries).length + countValid entries = entries.length
  | [], _ => by simp [importErrList, countValid]
  | e :: rest, i => by
    simp only [importErrList, countValid, List.countP_cons, List.length_cons]
    have hrec := importErrList_length rest (i + 1)
    simp only [countValid] at hrec
    split
    · omega
    · simp only [List.length_cons]
      omega

/-- C7: importing a document with at least one valid entry succeeds, replaces
the playlist with exactly the valid entries (one recorded error string per
dropped invalid entry) and resets the pointer to 0; a document in which no
entry validates fails and leaves the store exactly as it was. -/
theorem importPlaylist_spec (s : PMState) (genIds : ℕ → String) (now : String)
    (entries : List (Option CandidateData)) (loopVal : JVal) :
    (0 < countValid entries →
      ((importPlaylist s genIds now (.doc (some entries) loopVal)).2.success = true ∧
       (importPlaylist s genIds now (.doc (some entries) loopVal)).1.playlist =
         importMapValid genIds now 0 entries ∧
       (importPlaylist s genIds now (.doc (some entries) loopVal)).1.playlist.length =
         countValid entries ∧
       (importPlaylist s genIds now (.doc (some entries) loopVal)).2.errors.length +
         countValid entries = entries.length ∧
       (importPlaylist s genIds now (.doc (some entries) loopVal)).1.currentIndex = 0)) ∧
    (countValid entries = 0 →
      ((importPlaylist s genIds now (.doc (some entries) loopVal)).2.success = false ∧
       (importPlaylist s genIds now (.doc (some entries) loopVal)).1 = s)) := by
  have hscan := importScan_eq genIds now entries 0 [] []
  have hlen := importMapValid_length genIds now entries 0
  have herr := importErrList_length entries 0
  constructor
  · intro hpos
    have hne : ¬ ((importMapValid genIds now 0 entries).length = 0) := by omega
    simp only [importPlaylist, hscan, List.nil_append]
    rw [if_neg hne]
    exact ⟨rfl, rfl, hlen, herr, rfl⟩
  · intro hzero
    have hz : (importMapValid genIds now 0 entries).length = 0 := by omega
    simp only [importPlaylist, hscan, List.nil_append]
    rw [if_pos hz]
    exact ⟨rfl, rfl⟩

/-- Concrete import documents for the witness: two valid entries, one
invalid. -/
def entGood1 : Option CandidateData :=
  some { url := .str ("dQw4w9WgXcQ"), startTime := .num 1, endTime := .num 2 }
def entGood2 : Option CandidateData := some { url := .str ("abcdefghijk") }
def entBad : Option CandidateData := some { url := .str ("zz") }

/-- Witness for C7: the mixed document yields a 2-entry playlist with one
error string; the all-invalid document fails and leaves the prior store
untouched. -/
theorem importPlaylist_spec_witness :
    0 < countValid [entGood1, entBad, entGood2] ∧
    (importPlaylist pmAB (fun i => toString i) ("d")
      (.doc (some [entGood1, entBad, entGood2]) (.jbool true))).1.playlist.length = 2 ∧
    countValid [entBad] = 0 ∧
    (importPlaylist pmAB (fun i => toString i) ("d")
      (.doc (some [entBad]) (.jbool true))).1 = pmAB :=
  ⟨by decide, by
    have h := (importPlaylist_spec pmAB (fun i => toString i) ("d")
      [entGood1, entBad, entGood2] (.jbool true)).1 (by decide)
    rw [h.2.2.1]
    decide,
   by decide,
   ((importPlaylist_spec pmAB (fun i => toString i) ("d") [entBad] (.jbool true)).2
     (by decide)).2⟩

/-! ## C2 — the Monitor's end-signal latch -/

/-- A ready player with no video loaded and fades disabled. -/
def playerInit : PlayerState :=
  { isReady := true, currentVideoData := none, hasSegmentEnded := false
    progressTracking := false, volumeFading := false, enableVolumeFade := false
    fadeOutDuration := 2, emittedStateChanges := [] }

theorem latch_tick (s : PlayerState) (t : ℚ) (h : s.hasSegmentEnded = true) :
    pollTick s t = s := by
  simp only [pollTick, checkSegmentEnd]
  split
  · split
    · rfl
    · rw [if_pos (Or.inr h)]
  · rfl

theorem pollTick_step (s : PlayerState) (t : ℚ) (h : s.hasSegmentEnded = false) :
    (endSignalCount (pollTick s t) = endSignalCount s ∧
      (pollTick s t).hasSegmentEnded = false) ∨
    (endSignalCount (pollTick s t) = endSignalCount s + 1 ∧
      (pollTick s t).hasSegmentEnded = true) := by
  simp only [pollTick, checkSegmentEnd]
  split
  · split
    · exact Or.inl ⟨rfl, h⟩
    · split
      · exact Or.inl ⟨rfl, h⟩
      · split
        · right
          refine ⟨?_, ?_⟩ <;>
            · repeat' split
              all_goals simp [endSignalCount, YT_ENDED]
        · left
          refine ⟨?_, ?_⟩ <;>
            · repeat' split
              all_goals simp [endSignalCount, h]
  · exact Or.inl ⟨rfl, h⟩

theorem ticksRun_bound :
    ∀ (ts : List ℚ) (s : PlayerState),
      endSignalCount (ticksRun s ts) ≤
        endSignalCount s + (if s.hasSegmentEnded = true then 0 else 1)
  | [], s => by
    simp only [ticksRun, List.foldl_nil]
    split <;> omega
  | t :: ts, s => by
    simp only [ticksRun, List.foldl_cons]
    have hrec := ticksRun_bound ts (pollTick s t)
    simp only [ticksRun] at hrec
    by_cases h : s.hasSegmentEnded = true
    · rw [latch_tick s t h] at hrec
      rw [latch_tick s t h]
      exact hrec
    · have hf : s.hasSegmentEnded = false := by simpa using h
      rw [if_neg (by simp [hf])]
      rcases pollTick_step s t hf with ⟨hc, hl⟩ | ⟨hc, hl⟩
      · rw [hc, hl] at hrec
        simpa using hrec
      · rw [hc, hl] at hrec
        simp only [if_pos] at hrec
        omega

/-- C2 counterexample: after a load with `endTime = 30`, a PLAYING event, and
a polling tick at 30 seconds (latch set, one ENDED emission), a subsequent
provider ENDED event is forwarded to the state-change callback again — two
end signals for a single load. -/
theorem monitor_end_signal_counterexample :
    (playerRun playerInit
      [.load (some vidA), .provider YT_PLAYING, .tick 30]).hasSegmentEnded = true ∧
    endSignalCount (playerRun playerInit
      [.load (some vidA), .provider YT_PLAYING, .tick 30]) = 1 ∧
    endSignalCount (playerRun playerInit
      [.load (some vidA), .provider YT_PLAYING, .tick 30, .provider YT_ENDED]) = 2 := by
  refine ⟨by decide, by decide, by decide⟩

/-- C2 (amended): the polling path is exactly-once per load — once the
`hasSegmentEnded` latch is set a polling tick changes nothing, any sequence
of polling ticks emits at most one end signal, and a fresh `load()` resets
the latch; provider ENDED events, however, are forwarded to the state-change
callback unconditionally (deduplicated upstream by the engine's latch). -/
theorem monitor_end_latch_amended (s : PlayerState) (t : ℚ) (ts : List ℚ) (v : Video) :
    (s.hasSegmentEnded = true → pollTick s t = s) ∧
    (endSignalCount (ticksRun s ts) ≤
      endSignalCount s + (if s.hasSegmentEnded = true then 0 else 1)) ∧
    (s.isReady = true → (loadVideo s (some v)).1.hasSegmentEnded = false) :=
  ⟨fun h => latch_tick s t h, ticksRun_bound ts s,
   fun h => by simp [loadVideo, h]⟩

/-- Witness for the amended C2: after the tick that set the latch, a further
tick at a later time changes nothing. -/
theorem monitor_end_latch_amended_witness :
    (playerRun playerInit
      [.load (some vidA), .provider YT_PLAYING, .tick 30]).hasSegmentEnded = true ∧
    pollTick (playerRun playerInit
      [.load (some vidA), .provider YT_PLAYING, .tick 30]) 31 =
      playerRun playerInit [.load (some vidA), .provider YT_PLAYING, .tick 30] :=
  ⟨by decide,
   (monitor_end_latch_amended
      (playerRun playerInit [.load (some vidA), .provider YT_PLAYING, .tick 30])
      31 [] vidA).1 (by decide)⟩

/-! ## C1 — the advance latch drops racing duplicates -/

/-- With the latch set, `handleVideoEnd` is an exact no-op (the duplicate is
dropped, not queued). -/
theorem handleVideoEnd_latched (s : EngineState) (h : s.isHandlingVideoEnd = true) :
    handleVideoEnd s = s := by
  simp [handleVideoEnd, hveBegin, h]

/-- Anatomy of the synchronous prefix when the latch was clear: the store and
the counters relevant to the advance are untouched, the latch is now set, and
the snapshot locals are fixed. -/
theorem hveBegin_anatomy (s : EngineState) (hL : s.isHandlingVideoEnd = false) :
    ((hveBegin s).1.pm = s.pm ∧
     (hveBegin s).1.isHandlingVideoEnd = true ∧
     (hveBegin s).1.nextCalls = s.nextCalls ∧
     (hveBegin s).1.loadCalls = s.loadCalls ∧
     (hveBegin s).1.events = s.events ∧
     (hveBegin s).1.isPlayerReady = s.isPlayerReady) ∧
    (hveBegin s).2 = some
      { currentIndex := s.pm.currentIndex, nextVideo := getNextVideo s.pm
        actualNextVideo :=
          if (getNextVideo s.pm).isNone ∧ s.pm.loopEnabled ∧ 0 < s.pm.playlist.length then
            getVideo s.pm 0
          else getNextVideo s.pm
        hasNextOrLoop := hasNext s.pm } := by
  simp only [hveBegin, hL, Bool.false_eq_true, if_false]
  refine ⟨?_, ?_⟩ <;>
    · repeat' split
      all_goals simp

theorem handleVideoEndRace_eq (s : EngineState) (l : AdvanceLocals)
    (h : (hveBegin s).2 = some l) :
    handleVideoEndRace s = hveFinish (handleVideoEnd (hveBegin s).1) l := by
  unfold handleVideoEndRace
  have hpair : hveBegin s = ((hveBegin s).1, some l) := by rw [← h]
  rw [hpair]

theorem handleVideoEnd_eq (s : EngineState) (l : AdvanceLocals)
    (h : (hveBegin s).2 = some l) :
    handleVideoEnd s = hveFinish (hveBegin s).1 l := by
  unfold handleVideoEnd
  have hpair : hveBegin s = ((hveBegin s).1, some l) := by rw [← h]
  rw [hpair]

/-- C1: with auto-advance enabled and a next segment ahead, a second
`handleVideoEnd` arriving while the first is between its latch-set and its
commit is dropped with no state change, and the whole race performs exactly
one `next()` call with the pointer advancing by exactly one; a further call
after the commit but before the cooldown is dropped as well. -/
theorem advance_race_exactly_once (s : EngineState)
    (hA : s.config.autoAdvance = true)
    (hL : s.isHandlingVideoEnd = false)
    (hadv : s.pm.currentIndex + 1 < s.pm.playlist.length) :
    handleVideoEnd ((hveBegin s).1) = (hveBegin s).1 ∧
    (handleVideoEndRace s).nextCalls = s.nextCalls + 1 ∧
    (handleVideoEndRace s).pm.currentIndex = s.pm.currentIndex + 1 ∧
    handleVideoEnd (handleVideoEndRace s) = handleVideoEndRace s := by
  have hana := hveBegin_anatomy s hL
  have hdrop : handleVideoEnd ((hveBegin s).1) = (hveBegin s).1 :=
    handleVideoEnd_latched _ hana.1.2.1
  have hrace : handleVideoEndRace s = hveFinish ((hveBegin s).1)
      { currentIndex := s.pm.currentIndex, nextVideo := getNextVideo s.pm
        actualNextVideo :=
          if (getNextVideo s.pm).isNone ∧ s.pm.loopEnabled ∧ 0 < s.pm.playlist.length then
            getVideo s.pm 0
          else getNextVideo s.pm
        hasNextOrLoop := hasNext s.pm } := by
    rw [handleVideoEndRace_eq s _ hana.2, hdrop]
  have hHN : hasNext s.pm = true := by
    simp only [hasNext, Bool.or_eq_true, decide_eq_true_eq]
    left
    omega
  have hnext : next s.pm = ({ s.pm with currentIndex := s.pm.currentIndex + 1 }, true) := by
    unfold next
    rw [if_neg (by omega), if_pos (by omega)]
  have hXpm := hana.1.1
  refine ⟨hdrop, ?_, ?_, ?_⟩
  · rw [hrace]
    simp only [hveFinish, hHN, if_true, engineNext, hXpm, hnext,
      engineNotifyIndexChange]
    split <;> simp [hana.1.2.2.1]
  · rw [hrace]
    simp only [hveFinish, hHN, if_true, engineNext, hXpm, hnext,
      engineNotifyIndexChange]
    split <;> simp
  · rw [hrace]
    apply handleVideoEnd_latched
    simp only [hveFinish, hHN, if_true, engineNext, hXpm, hnext,
      engineNotifyIndexChange]
    split <;> simp [hana.1.2.1]

/-- The scenario engine state: playlist `[A, B]`, pointer at A, loop off,
everything enabled, latch clear. -/
def engAB : EngineState :=
  { pm := pmAB
    config := { autoAdvance := true, enableAudioEffects := true
                enableTransitionScreen := true, transitionDuration := 21 }
    isPlayerReady := true, isHandlingVideoEnd := false
    audioManagerPresent := true, transitionScreenPresent := true
    nextCalls := 0, loadCalls := 0, countdownShows := 0, applausePlays := 0
    events := [] }

/-- Witness for C1 on the concrete scenario state. -/
theorem advance_race_exactly_once_witness :
    engAB.config.autoAdvance = true ∧ engAB.isHandlingVideoEnd = false ∧
    engAB.pm.currentIndex + 1 < engAB.pm.playlist.length ∧
    (handleVideoEndRace engAB).nextCalls = 1 ∧
    (handleVideoEndRace engAB).pm.currentIndex = 1 :=
  ⟨by decide, by decide, by decide,
   (advance_race_exactly_once engAB (by decide) (by decide) (by decide)).2.1,
   (advance_race_exactly_once engAB (by decide) (by decide) (by decide)).2.2.1⟩

/-! ## C8 — segment end at the last index with loop disabled -/

/-- C8 counterexample: in the all-enabled configuration, the end-of-playlist
path still plays the applause audio (the engine's `else if` audio branch runs
even though no next segment exists), contradicting "no applause audio". -/
theorem playlist_end_plays_applause_counterexample :
    (handleVideoEnd { engAB with pm := { pmAB with currentIndex := 1 } }).applausePlays = 1 ∧
    (handleVideoEnd { engAB with pm := { pmAB with currentIndex := 1 } }).events =
      [.playlistEnded] ∧
    (handleVideoEnd { engAB with pm := { pmAB with currentIndex := 1 } }).nextCalls = 0 ∧
    (handleVideoEnd { engAB with pm := { pmAB with currentIndex := 1 } }).loadCalls = 0 ∧
    (handleVideoEnd { engAB with pm := { pmAB with currentIndex := 1 } }).countdownShows = 0 :=
  ⟨by decide, by decide, by decide, by decide, by decide⟩

/-- C8 (amended): with the pointer at the last index and loop disabled, the
end signal yields exactly the "playlist ended" event, leaves the store
untouched, performs no `next()` call and no load, and shows no countdown
screen; the applause audio however still plays whenever audio effects are
enabled and the audio manager exists (it is skipped only when they are not). -/
theorem playlist_end_amended (s : EngineState)
    (hL : s.isHandlingVideoEnd = false)
    (hlen : 0 < s.pm.playlist.length)
    (hlast : s.pm.currentIndex = s.pm.playlist.length - 1)
    (hloop : s.pm.loopEnabled = false) :
    (handleVideoEnd s).events = s.events ++ [.playlistEnded] ∧
    (handleVideoEnd s).pm = s.pm ∧
    (handleVideoEnd s).nextCalls = s.nextCalls ∧
    (handleVideoEnd s).loadCalls = s.loadCalls ∧
    (handleVideoEnd s).countdownShows = s.countdownShows ∧
    (handleVideoEnd s).applausePlays = s.applausePlays +
      (if s.config.enableAudioEffects = true ∧ s.audioManagerPresent = true then 1
       else 0) := by
  have hHN : hasNext s.pm = false := by
    simp only [hasNext, hloop, Bool.or_false, decide_eq_false_iff_not]
    omega
  have hNV : getNextVideo s.pm = none := by simp [getNextVideo, hHN]
  have heq := handleVideoEnd_eq s _ (hveBegin_anatomy s hL).2
  rw [heq]
  simp only [hveFinish, hveBegin, hL, hNV, hHN, hloop, Option.isNone_none,
    Bool.false_eq_true, false_and, and_false, if_false, Option.isSome_none]
  split <;> simp

/-- Witness for the amended C8 at the concrete scenario state (pointer at B,
loop off, everything enabled): playlist-ended event, untouched store, and one
applause playback. -/
theorem playlist_end_amended_witness :
    ({ engAB with pm := { pmAB with currentIndex := 1 } } : EngineState).isHandlingVideoEnd
      = false ∧
    (handleVideoEnd { engAB with pm := { pmAB with currentIndex := 1 } }).events =
      ({ engAB with pm := { pmAB with currentIndex := 1 } } : EngineState).events ++
        [.playlistEnded] ∧
    (handleVideoEnd { engAB with pm := { pmAB with currentIndex := 1 } }).pm =
      ({ engAB with pm := { pmAB with currentIndex := 1 } } : EngineState).pm :=
  ⟨by decide,
   (playlist_end_amended { engAB with pm := { pmAB with currentIndex := 1 } }
     (by decide) (by decide) (by decide) (by decide)).1,
   (playlist_end_amended { engAB with pm := { pmAB with currentIndex := 1 } }
     (by decide) (by decide) (by decide) (by decide)).2.1⟩

/-! ## C9 — the validator's rules

The rule predicates below restate §4.1's validation rules independently of
the code; `claimEndRule` is the end-offset rule exactly as the claim words it
(
with an absent start offset defaulting to 0 for the strict comparison),
`ruleEndOk` is the rule the code actually enforces (the strict comparison
only happens when a start offset is explicitly present). -/

def ruleLocatorOk (v : CandidateData) : Prop :=
  v.url.truthy = true ∧ (extractVideoId v.url).isSome = true

def ruleStartOk (v : CandidateData) : Prop :=
  v.startTime = .undef ∨ (isNum v.startTime = true ∧ 0 ≤ v.startTime.asNum)

def ruleEndOk (v : CandidateData) : Prop :=
  v.endTime = .undef ∨ v.endTime = .jnull ∨
    (isNum v.endTime = true ∧ 0 ≤ v.endTime.asNum ∧
      (v.startTime = .undef ∨ v.startTime.asNum < v.endTime.asNum))

def ruleTitleOk (v : CandidateData) : Prop :=
  v.title.truthy = false ∨ isStr v.title = true

instance (v : CandidateData) : Decidable (ruleLocatorOk v) := by
  unfold ruleLocatorOk
  infer_instance

instance (v : CandidateData) : Decidable (ruleStartOk v) := by
  unfold ruleStartOk
  infer_instance

instance (v : CandidateData) : Decidable (ruleEndOk v) := by
  unfold ruleEndOk
  infer_instance

instance (v : CandidateData) : Decidable (ruleTitleOk v) := by
  unfold ruleTitleOk
  infer_instance

/-- The end-offset rule as the claim states it: a present end offset must be
non-negative and strictly greater than the start offset, an absent start
offset defaulting to 0. -/
def claimEndRule (v : CandidateData) : Prop :=
  v.endTime = .undef ∨ v.endTime = .jnull ∨
    (isNum v.endTime = true ∧ 0 ≤ v.endTime.asNum ∧
      (if v.startTime = .undef then (0 : ℚ) else v.startTime.asNum) < v.endTime.asNum)

instance (v : CandidateData) : Decidable (claimEndRule v) := by
  unfold claimEndRule
  infer_instance

/-- Membership in a one-message conditional error list. -/
theorem ite_single_mem {p : Prop} [Decidable p] (m : String)
    (h : (if p then [m] else ([] : List String)) ≠ []) :
    m ∈ (if p then [m] else ([] : List String)) := by
  split_ifs at h ⊢ <;> simp_all

/-- Membership in the two-message end-offset error list. -/
theorem ite_two_mem {p a b : Prop} [Decidable p] [Decidable a] [Decidable b]
    (m1 m2 : String)
    (h : (if p then (if a then [m1] else if b then [m2] else ([] : List String))
      else []) ≠ []) :
    m1 ∈ (if p then (if a then [m1] else if b then [m2] else ([] : List String))
      else []) ∨
    m2 ∈ (if p then (if a then [m1] else if b then [m2] else ([] : List String))
      else []) := by
  split_ifs at h ⊢ <;> simp_all

/-- C9 counterexample: a candidate with a resolvable locator, no start
offset, and `endTime = 0` violates the claim's end rule (0 is not strictly
greater than the defaulted start 0), yet the code validates it — the
`endTime <= startTime` comparison is skipped when `startTime` is absent. -/
theorem validate_skips_default_comparison :
    (validateVideoData (some { url := .str ("dQw4w9WgXcQ"), endTime := .num 0 })).isValid
      = true ∧
    ¬ claimEndRule { url := .str ("dQw4w9WgXcQ"), endTime := .num 0 } :=
  ⟨by decide, by decide⟩

/-- C9 (amended): validation succeeds exactly when the locator resolves, a
present start offset is a non-negative number, a present (non-null) end
offset is a non-negative number that is strictly greater than the start
offset whenever the start offset is explicitly present (no defaulting), and a
truthy title is a string; every violated rule contributes its message to the
returned error list, not just the first.  (Start offsets are quantified over
the shapes the comparison actually receives: absent or numeric.) -/
theorem validateVideoData_rules (v : CandidateData)
    (hstart : v.startTime = .undef ∨ isNum v.startTime = true) :
    ((validateVideoData (some v)).isValid = true ↔
      (ruleLocatorOk v ∧ ruleStartOk v ∧ ruleEndOk v ∧ ruleTitleOk v)) ∧
    (¬ ruleLocatorOk v → msgUrl ∈ (validateVideoData (some v)).errors) ∧
    (¬ ruleStartOk v → msgStart ∈ (validateVideoData (some v)).errors) ∧
    (¬ ruleEndOk v →
      msgEndNonneg ∈ (validateVideoData (some v)).errors ∨
      msgEndGt ∈ (validateVideoData (some v)).errors) ∧
    (¬ ruleTitleOk v → msgTitle ∈ (validateVideoData (some v)).errors) := by
  have h1 : ((if ¬ v.url.truthy ∨ (extractVideoId v.url).isNone then
      ([msgUrl] : List String) else []) = []) ↔ ruleLocatorOk v := by
    rcases hx : extractVideoId v.url with _ | vid <;>
      · split_ifs with hc <;> simp_all [ruleLocatorOk, msgUrl] <;> tauto
  have h2 : ((if v.startTime ≠ .undef ∧ (¬ isNum v.startTime ∨ v.startTime.asNum < 0) then
      ([msgStart] : List String) else []) = []) ↔ ruleStartOk v := by
    split_ifs with hc <;> simp_all [ruleStartOk, msgStart, not_or, not_lt] <;> tauto
  have h3 : ((if v.endTime ≠ .undef ∧ v.endTime ≠ .jnull then
      if ¬ isNum v.endTime ∨ v.endTime.asNum < 0 then ([msgEndNonneg] : List String)
      else if v.startTime ≠ .undef ∧ jsLE v.endTime v.startTime then [msgEndGt]
      else []
     else []) = []) ↔ ruleEndOk v := by
    rcases hv : v.endTime with _ | _ | eq | es | eb
    · simp [ruleEndOk, hv]
    · simp [ruleEndOk, hv]
    · rcases le_or_lt 0 eq with hq | hq
      · rcases hstart with hs | hs
        · simp [ruleEndOk, hv, hs, isNum, JVal.asNum, jsLE, not_lt, hq]
        · rcases hst : v.startTime with _ | _ | sq | ss | sb <;>
            rw [hst] at hs <;> simp only [isNum, Bool.false_eq_true] at hs
          simp [ruleEndOk, hv, hst, isNum, JVal.asNum, jsLE, JVal.toNumCmp, hq]
          split_ifs with ha hb
          · exact absurd ha (not_lt.mpr hq)
          · simp only [false_iff, not_lt]
            exact hb
          · simp only [true_iff]
            exact not_le.mp hb
      · simp [ruleEndOk, hv, isNum, JVal.asNum, not_le, hq, msgEndNonneg]
    · simp [ruleEndOk, hv, isNum, msgEndNonneg]
    · simp [ruleEndOk, hv, isNum, msgEndNonneg]
  have h4 : ((if v.title.truthy ∧ ¬ isStr v.title then ([msgTitle] : List String)
      else []) = []) ↔ ruleTitleOk v := by
    split_ifs with hc
    · constructor
      · intro h
        exact h.elim
      · intro hrule
        rcases hrule with h | h
        · rw [hc.1] at h
          exact Bool.noConfusion h
        · exact absurd h hc.2
    · refine iff_of_true rfl ?_
      rcases Bool.eq_false_or_eq_true v.title.truthy with h | h
      · rcases Bool.eq_false_or_eq_true (isStr v.title) with h2 | h2
        · exact Or.inr h2
        · exact absurd ⟨h, by simp [h2]⟩ hc
      · exact Or.inl h
  have herr : (validateVideoData (some v)).errors =
      (if ¬ v.url.truthy ∨ (extractVideoId v.url).isNone then [msgUrl] else []) ++
      (if v.startTime ≠ .undef ∧ (¬ isNum v.startTime ∨ v.startTime.asNum < 0) then
        [msgStart] else []) ++
      (if v.endTime ≠ .undef ∧ v.endTime ≠ .jnull then
        if ¬ isNum v.endTime ∨ v.endTime.asNum < 0 then [msgEndNonneg]
        else if v.startTime ≠ .undef ∧ jsLE v.endTime v.startTime then [msgEndGt]
        else []
       else []) ++
      (if v.title.truthy ∧ ¬ isStr v.title then [msgTitle] else []) := rfl
  have hvalid : (validateVideoData (some v)).isValid =
      (validateVideoData (some v)).errors.isEmpty := rfl
  refine ⟨?_, ?_, ?_, ?_, ?_⟩
  · rw [hvalid, herr]
    simp only [List.isEmpty_iff, List.append_eq_nil]
    rw [and_assoc, and_assoc]
    exact and_congr h1 (and_congr h2 (and_congr h3 h4))
  · intro hbad
    rw [herr]
    exact List.mem_append.mpr (Or.inl (List.mem_append.mpr (Or.inl
      (List.mem_append.mpr (Or.inl (ite_single_mem _ fun h => hbad (h1.mp h)))))))
  · intro hbad
    rw [herr]
    exact List.mem_append.mpr (Or.inl (List.mem_append.mpr (Or.inl
      (List.mem_append.mpr (Or.inr (ite_single_mem _ fun h => hbad (h2.mp h)))))))
  · intro hbad
    rw [herr]
    have hne : (if v.endTime ≠ .undef ∧ v.endTime ≠ .jnull then
        if ¬ isNum v.endTime ∨ v.endTime.asNum < 0 then ([msgEndNonneg] : List String)
        else if v.startTime ≠ .undef ∧ jsLE v.endTime v.startTime then [msgEndGt]
        else []
       else []) ≠ [] := fun h => hbad (h3.mp h)
    rcases ite_two_mem msgEndNonneg msgEndGt hne with hmem | hmem
    · exact Or.inl (List.mem_append.mpr (Or.inl (List.mem_append.mpr (Or.inr hmem))))
    · exact Or.inr (List.mem_append.mpr (Or.inl (List.mem_append.mpr (Or.inr hmem))))
  · intro hbad
    rw [herr]
    exact List.mem_append.mpr (Or.inr (ite_single_mem _ fun h => hbad (h4.mp h)))

/-- A candidate breaking the locator, start-offset, end-offset and title
rules at once. -/
def candBad : CandidateData :=
  { url := .str ("zz"), startTime := .num (-1), endTime := .num (-2),
    title := .num 7 }

/-- Witness for the amended C9: the all-bad candidate fails validation and
collects the locator, start and title messages, and a fully valid candidate
passes. -/
theorem validateVideoData_rules_witness :
    ((validateVideoData (some candBad)).isValid = false ∧
      msgUrl ∈ (validateVideoData (some candBad)).errors ∧
      msgStart ∈ (validateVideoData (some candBad)).errors ∧
      msgTitle ∈ (validateVideoData (some candBad)).errors) ∧
    (validateVideoData (some candA)).isValid = true :=
  ⟨⟨by decide,
    (validateVideoData_rules candBad (Or.inr (by decide))).2.1 (by decide),
    (validateVideoData_rules candBad (Or.inr (by decide))).2.2.1 (by decide),
    (validateVideoData_rules candBad (Or.inr (by decide))).2.2.2.2 (by decide)⟩,
   by decide⟩

/-! ## C10 — getPlaylist returns a fresh, non-aliasing copy -/

/-- C10: `getPlaylist()` hands out a reference distinct from the store's
internal array, initialised with the same contents; mutating the returned
array in any way leaves the store's contents, length and pointer unchanged,
and a subsequent `getPlaylist()` still returns the pre-mutation sequence. -/
theorem getPlaylist_fresh_copy (st : StoreRT) (hwf : st.wf)
    (f : List Video → List Video) :
    (getPlaylistRT st).2 ≠ ((getPlaylistRT st).1).playlistRef ∧
    ((getPlaylistRT st).1).heap.arrays (getPlaylistRT st).2 = storeContents st ∧
    storeContents (mutateArrayRT (getPlaylistRT st).1 (getPlaylistRT st).2 f) =
      storeContents st ∧
    getLengthRT (mutateArrayRT (getPlaylistRT st).1 (getPlaylistRT st).2 f) =
      getLengthRT st ∧
    (mutateArrayRT (getPlaylistRT st).1 (getPlaylistRT st).2 f).currentIndex =
      st.currentIndex ∧
    (getPlaylistRT (mutateArrayRT (getPlaylistRT st).1 (getPlaylistRT st).2 f)).1.heap.arrays
      (getPlaylistRT (mutateArrayRT (getPlaylistRT st).1 (getPlaylistRT st).2 f)).2 =
      storeContents st := by
  have hne : st.heap.nextRef ≠ st.playlistRef := Nat.ne_of_gt hwf
  have hcontents :
      storeContents (mutateArrayRT (getPlaylistRT st).1 (getPlaylistRT st).2 f) =
        storeContents st := by
    simp only [mutateArrayRT, getPlaylistRT, heapAlloc, heapWrite, storeContents]
    rw [if_neg hne.symm, if_neg hne.symm]
  refine ⟨?_, ?_, hcontents, ?_, rfl, ?_⟩
  · simpa [getPlaylistRT, heapAlloc] using hne
  · simp [getPlaylistRT, heapAlloc, storeContents]
  · simp only [getLengthRT, hcontents]
  · simp [getPlaylistRT, heapAlloc, storeContents, mutateArrayRT, heapWrite, hne.symm]

/-- A one-segment concrete runtime store. -/
def storeRT1 : StoreRT :=
  { heap := { arrays := fun i => if i = 0 then [vidA] else [], nextRef := 1 }
    playlistRef := 0, currentIndex := 0, loopEnabled := false }

/-- Witness for C10: pushing a segment onto the array returned by
`getPlaylist()` leaves the concrete store's contents untouched. -/
theorem getPlaylist_fresh_copy_witness :
    storeRT1.wf ∧
    storeContents (mutateArrayRT (getPlaylistRT storeRT1).1 (getPlaylistRT storeRT1).2
      (fun l => l ++ [vidB])) = storeContents storeRT1 :=
  ⟨by simp [StoreRT.wf, storeRT1],
   (getPlaylist_fresh_copy storeRT1 (by simp [StoreRT.wf, storeRT1])
     (fun l => l ++ [vidB])).2.2.1⟩

end YSP
